import Mathlib

/-!
Verification of the urban-isolation-index pipeline.

Shallow embedding conventions:
* a CSV / DataFrame numeric column is a `List ℚ` (exact decimal values);
* z-scores, which divide by a square root, live in `ℝ`;
* pandas `Series.std(ddof=0)` is `Real.sqrt (popVar l)`; the pandas default
  `Series.std()` (ddof = 1) is `Real.sqrt (sumSqDev l / (n - 1))`, which is
  NaN for n ≤ 1 and is therefore modelled with `Option` where a site tests
  for NaN;
* fallible code returns `Except String`.
-/

namespace UrbanIso

/-- Arithmetic mean of a column (pandas `Series.mean`); 0 on the empty list
(where pandas yields NaN; no modelled site consumes the mean of an empty
series except through a zero-variance branch). -/
def mean (l : List ℚ) : ℚ := l.sum / (l.length : ℚ)

/-- Sum of squared deviations from the mean. -/
def sumSqDev (l : List ℚ) : ℚ := (l.map (fun x => (x - mean l) ^ 2)).sum

/-- Population variance, pandas `Series.std(ddof=0)` squared (denominator N). -/
def popVar (l : List ℚ) : ℚ := sumSqDev l / (l.length : ℚ)

/-- Population standard deviation (ddof = 0). -/
noncomputable def popStd (l : List ℚ) : ℝ := Real.sqrt ((popVar l : ℚ) : ℝ)

/-- pandas default `Series.std()` (ddof = 1) squared: `none` models the NaN
produced when the series has at most one row. -/
def sampleVar? (l : List ℚ) : Option ℚ :=
  if l.length ≤ 1 then none else some (sumSqDev l / ((l.length : ℚ) - 1))

/-- src/uix/index.py `_zscore`: `(s - mu) / sigma` with `sigma = s.std(ddof=0)`;
the source branches on `sigma == 0 or pd.isna(sigma)`.  Here σ = √(popVar l)
vanishes exactly when `popVar l = 0` (see `popStd_eq_zero_iff`), and σ is NaN
only for the empty series, whose `popVar` is 0 in this embedding as well, so
the branch is the decidable test `popVar l = 0`. -/
noncomputable def _zscore (l : List ℚ) : List ℝ :=
  if popVar l = 0 then l.map (fun _ => (0 : ℝ))
  else l.map (fun x : ℚ => ((x : ℝ) - ((mean l : ℚ) : ℝ)) / popStd l)

/-- src/cli/07_pca_iso_index.py `zscore`: identical computation
(`sigma = series.std(ddof=0)`, zero branch returns `np.zeros(len(series))`). -/
noncomputable def zscore (l : List ℚ) : List ℝ :=
  if popVar l = 0 then l.map (fun _ => (0 : ℝ))
  else l.map (fun x : ℚ => ((x : ℝ) - ((mean l : ℚ) : ℝ)) / popStd l)

/-- src/cli/11_build_final_index.py `safe_z`: `std = x.std(ddof=0)`; the zero
branch returns `x * 0`. -/
noncomputable def safe_z (l : List ℚ) : List ℝ :=
  if popVar l = 0 then l.map (fun x : ℚ => (x : ℝ) * 0)
  else l.map (fun x : ℚ => ((x : ℝ) - ((mean l : ℚ) : ℝ)) / popStd l)

/-- src/cli/07_ingest_osaka_access.py lines 59-68: `std = x.std(ddof=0)`; on
`std == 0 or pd.isna(std)` it sets `access_z = 0.0` for every row. -/
noncomputable def osakaAccessZ (l : List ℚ) : List ℝ :=
  if popVar l = 0 then l.map (fun _ => (0 : ℝ))
  else l.map (fun x : ℚ => ((x : ℝ) - ((mean l : ℚ) : ℝ)) / popStd l)

/-- src/cli/10_merge_transit.py lines 150-154: `std = x.std(ddof=0)`; on
`std == 0` it sets `transit_z = 0.0`. -/
noncomputable def mergeTransitZ (l : List ℚ) : List ℝ :=
  if popVar l = 0 then l.map (fun _ => (0 : ℝ))
  else l.map (fun x : ℚ => ((x : ℝ) - ((mean l : ℚ) : ℝ)) / popStd l)

/-- src/cli/09_ingest_transit_alt.py line 44:
`(x - x.mean()) / x.std()` with the pandas default ddof = 1 and no guard.
Modelled for series of at least two rows (with fewer rows pandas produces a
NaN column; no theorem below evaluates this definition there). -/
noncomputable def transitAltZ (l : List ℚ) : List ℝ :=
  l.map (fun x : ℚ =>
    ((x : ℝ) - ((mean l : ℚ) : ℝ)) /
      Real.sqrt (((sumSqDev l / ((l.length : ℚ) - 1) : ℚ) : ℝ)))

/-- The single error message of the `raise ValueError` in
src/cli/07_ingest_tokyo_access.py lines 77-81. -/
def tokyoAccessErrMsg : String :=
  "Standard deviation of access_raw is zero or NaN. Check that you have varying values across wards."

/-- src/cli/07_ingest_tokyo_access.py lines 73-83: `std = df[...].std()`
(pandas default ddof = 1, NaN for at most one row); on
`std == 0 or pd.isna(std)` it raises ValueError, otherwise it assigns
`(x - mean) / std`. -/
noncomputable def tokyoAccessZ (l : List ℚ) : Except String (List ℝ) :=
  match sampleVar? l with
  | none => .error tokyoAccessErrMsg
  | some v =>
    if v = 0 then .error tokyoAccessErrMsg
    else .ok (l.map (fun x : ℚ => ((x : ℝ) - ((mean l : ℚ) : ℝ)) / Real.sqrt ((v : ℚ) : ℝ)))

/-! ## LISA cluster labelling sites -/

/-- src/cli/11_spatial_stats_osaka.py `_cluster_label` (nested in
`classify_lisa`, default `p_thresh = 0.05`): note that it sends q = 2 to
"Low-Low" and q = 3 to "Low-High". -/
def _cluster_label (p_thresh p : ℚ) (q : ℤ) : String :=
  if p ≥ p_thresh then "Not significant"
  else if q = 1 then "High-High"
  else if q = 2 then "Low-Low"
  else if q = 3 then "Low-High"
  else if q = 4 then "High-Low"
  else "Not significant"

/-- scripts/plot_tokyo_diri_and_lisa_maps.py `classify_lisa`, per element:
labels start as "Not significant" and the entry is overwritten exactly when
its own quadrant is matched and `p < p_thresh`. -/
def classify_lisa_label (p_thresh p : ℚ) (q : ℤ) : String :=
  if p < p_thresh then
    if q = 1 then "High-High"
    else if q = 2 then "Low-High"
    else if q = 3 then "Low-Low"
    else if q = 4 then "High-Low"
    else "Not significant"
  else "Not significant"

/-- notebooks/osaka_isolation_analysis.py: the `cluster_map` dict
(0 = ns, 1 = HH, 2 = LH, 3 = LL, 4 = HL); `Series.map` yields a missing value
on a key outside the dict, modelled as `none`. -/
def cluster_map (raw : ℤ) : Option String :=
  if raw = 0 then some "Not significant"
  else if raw = 1 then some "High-High"
  else if raw = 2 then some "Low-High"
  else if raw = 3 then some "Low-Low"
  else if raw = 4 then some "High-Low"
  else none

/-- notebooks/osaka_isolation_analysis.py lines 202-213:
`lisa_cluster_raw = q` where `p_sim < 0.05`, else 0, then `cluster_map`. -/
def notebookLabel (p : ℚ) (q : ℤ) : Option String :=
  cluster_map (if p < 1/20 then q else 0)

/-- The quadrant encoding stated by the spec:
1 = High-High, 2 = Low-High, 3 = Low-Low, 4 = High-Low. -/
def quadrantName (q : ℤ) : Option String :=
  if q = 1 then some "High-High"
  else if q = 2 then some "Low-High"
  else if q = 3 then some "Low-Low"
  else if q = 4 then some "High-Low"
  else none

/-- The cluster-category contract of the spec: the quadrant name when
`p < p_thresh`, otherwise "Not significant". -/
def specLabel (p_thresh p : ℚ) (q : ℤ) : Option String :=
  if p < p_thresh then quadrantName q else some "Not significant"

/-! ## Weight sets -/

/-- src/uix/index.py `IsolationIndexConfig.__post_init__` default weights
(comment in source: "must sum to 1.0"). -/
def defaultWeights : List (String × ℚ) :=
  [("pct_age65p", 0.4), ("pct_single65p", 0.3), ("poverty_rate", 0.3)]

/-- scripts/build_designed_index.py lines 52-57: the coefficients of
`iri_designed`. -/
def designedWeights : List (String × ℚ) :=
  [("pct_age65p_z", 0.25), ("pct_single65p_z", 0.25),
   ("poverty_rate_z", 0.20), ("neg_transit_z", 0.15)]

/-- src/cli/11_build_final_index.py line 107. -/
def w_demo : ℚ := 0.50

/-- src/cli/11_build_final_index.py line 108. -/
def w_socio : ℚ := 0.375

/-- src/cli/11_build_final_index.py line 109. -/
def w_transit : ℚ := 0.125

/-- The final-index weight set of src/cli/11_build_final_index.py lines
107-116 (coefficients of `iso_final`). -/
def finalWeights : List (String × ℚ) :=
  [("demo_component_z", w_demo), ("socio_component_z", w_socio),
   ("transit_component_z", w_transit)]

/-- The pre-drop weight set recorded in the comment of
src/cli/11_build_final_index.py lines 103-105: demo 0.40, socio 0.30,
transit 0.10, access 0.20. -/
def preDropWeights : List (String × ℚ) :=
  [("demo", 0.40), ("socio", 0.30), ("transit", 0.10), ("access", 0.20)]

/-- The spec's renormalization policy for dropping a component from a weight
set: keep the other entries and divide each by the sum of the kept weights,
so relative proportions are preserved and the result sums to 1. -/
def dropAndRenorm (ws : List (String × ℚ)) (dropped : String) : List (String × ℚ) :=
  let kept := ws.filter (fun p => p.1 ≠ dropped)
  let total := (kept.map Prod.snd).sum
  kept.map (fun p => (p.1, p.2 / total))

/-! ## Range normalizer -/

/-- pandas `Series.min` (0 on the empty series, where pandas yields NaN). -/
def listMin : List ℚ → ℚ
  | [] => 0
  | x :: xs => xs.foldl min x

/-- pandas `Series.max` (0 on the empty series, where pandas yields NaN). -/
def listMax : List ℚ → ℚ
  | [] => 0
  | x :: xs => xs.foldl max x

/-- The per-element value of src/cli/13_normalize_indices.py `minmax_0_100`
(the series-level branch on `max_val - min_val == 0` does not depend on the
element, so the series computation is the element-wise map of this value). -/
def minmaxVal (l : List ℚ) (x : ℚ) : ℚ :=
  if listMax l - listMin l = 0 then 50
  else 100 * (x - listMin l) / (listMax l - listMin l)

/-- src/cli/13_normalize_indices.py `minmax_0_100`: returns `[50] * len` when
`max_val - min_val == 0`, else `100 * (series - min) / (max - min)`. -/
def minmax_0_100 (l : List ℚ) : List ℚ := l.map (minmaxVal l)

/-! ## Real-valued statistics (for the PCA index) -/

/-- Mean of a real-valued vector (`np.mean`); 0 on the empty list. -/
noncomputable def meanR (l : List ℝ) : ℝ := l.sum / (l.length : ℝ)

/-- Population variance of a real-valued vector (`np.std(ddof=0)` squared). -/
noncomputable def popVarR (l : List ℝ) : ℝ := (l.map (fun x => (x - meanR l) ^ 2)).sum / (l.length : ℝ)

/-- Population standard deviation of a real-valued vector. -/
noncomputable def popStdR (l : List ℝ) : ℝ := Real.sqrt (popVarR l)

/-- Covariance with denominator n (the ddof cancels inside a Pearson
correlation, so `np.corrcoef` reduces to `covR / (popStdR * popStdR)`). -/
noncomputable def covR (x y : List ℝ) : ℝ :=
  (((x.zip y).map (fun p => (p.1 - meanR x) * (p.2 - meanR y))).sum) / (x.length : ℝ)

/-- Pearson correlation of two equally long vectors, as computed by
`np.corrcoef(a, b)[0, 1]`. -/
noncomputable def pearson (x y : List ℝ) : ℝ := covR x y / (popStdR x * popStdR y)

/-! ## Dimensionality-reduction index builder
(src/cli/07_pca_iso_index.py `compute_pca_index`).

The single external call `PCA(n_components=1).fit_transform(X)[:, 0]` of the
sklearn library is not code of this repository; the projected `scores` vector
it returns is therefore a parameter of the embedded computation, and the
repository's own lines 64-77 (re-standardization and sign alignment) are
embedded faithfully. -/

/-- Line 65: `scores_z = (scores - scores.mean()) / scores.std(ddof=0)`. -/
noncomputable def pcaScoresZ (scores : List ℝ) : List ℝ :=
  scores.map (fun s => (s - meanR scores) / popStdR scores)

/-- Lines 67-76: `np.corrcoef(scores_z, iso_index)[0, 1]`; when negative,
`scores_z = -scores_z`; the result is the `iso_index_pca` column. -/
noncomputable def iso_index_pca (scores iso : List ℝ) : List ℝ :=
  if pearson (pcaScoresZ scores) iso < 0 then (pcaScoresZ scores).map (fun s => -s)
  else pcaScoresZ scores

/-! ## DataFrame model

A DataFrame is an ordered association list from column name to column.  A
column holds either the exact rationals read from a CSV (`Sum.inl`) or
real-valued derived scores (`Sum.inr`). -/

/-- A DataFrame column. -/
abbrev Col := List ℚ ⊕ List ℝ

/-- The real values of a column. -/
noncomputable def colReals : Col → List ℝ
  | .inl q => q.map (fun x => (x : ℝ))
  | .inr r => r

/-- Column lookup (`df[name]` / `name in df.columns`): first match wins;
pandas column names are unique. -/
def getCol : List (String × Col) → String → Option Col
  | [], _ => none
  | (n, c) :: rest, name => if n = name then some c else getCol rest name

/-- `df[name] = col`: overwrite in place when the column exists (pandas keeps
its position), append otherwise. -/
def setCol (df : List (String × Col)) (name : String) (c : Col) : List (String × Col) :=
  if (getCol df name).isSome then
    df.map (fun p => if p.1 = name then (p.1, c) else p)
  else df ++ [(name, c)]

/-- `_zscore` extended to a column of either kind (the zero-variance test on a
real-valued column is the same `sigma == 0` branch, stated on `popVarR`). -/
noncomputable def zscoreReal (l : List ℝ) : List ℝ :=
  if popVarR l = 0 then l.map (fun _ => (0 : ℝ))
  else l.map (fun x => (x - meanR l) / popStdR l)

/-- Apply `_zscore` to a column. -/
noncomputable def colZ : Col → List ℝ
  | .inl q => _zscore q
  | .inr r => zscoreReal r

/-! ## Composite index builder (src/uix/index.py `compute_isolation_index`) -/

/-- src/uix/index.py `IsolationIndexConfig` (weights as an insertion-ordered
dict). -/
structure IsolationIndexConfig where
  metrics : List String
  weights : List (String × ℚ)
  index_col : String

/-- The default configuration built by `__post_init__`. -/
def defaultConfig : IsolationIndexConfig :=
  { metrics := ["pct_age65p", "pct_single65p", "poverty_rate"]
    weights := defaultWeights
    index_col := "iso_index" }

/-- Loop 1 of `compute_isolation_index` (lines 55-60): for each metric in
order, raise KeyError when the name is absent from the accumulated frame,
else append the column `<metric>_z`.  (The source interpolates the metric
name into the message; the embedding keeps one fixed message per metric.) -/
noncomputable def addZCols (out : List (String × Col)) : List String → Except String (List (String × Col))
  | [] => .ok out
  | m :: rest =>
    match getCol out m with
    | none => .error ("KeyError: Metric " ++ m ++ " not found in DataFrame columns.")
    | some col => addZCols (out ++ [(m ++ "_z", (Sum.inr (colZ col) : Col))]) rest

/-- Loop 2 of `compute_isolation_index` (lines 63-66): `idx` starts at the
scalar 0.0 (broadcast to the row count) and accumulates
`weight * out[z_cols[metric]]`; `z_cols[metric]` is a Python dict lookup that
raises KeyError exactly when the weight names a metric outside
`config.metrics` (the keys inserted by loop 1). -/
noncomputable def weightedIdx (metrics : List String) (out : List (String × Col)) :
    List ℝ → List (String × ℚ) → Except String (List ℝ)
  | idx, [] => .ok idx
  | idx, (m, w) :: rest =>
    if m ∈ metrics then
      weightedIdx metrics out
        (List.zipWith (fun a z => a + (w : ℝ) * z) idx
          (colReals ((getCol out (m ++ "_z")).getD (Sum.inr []))))
        rest
    else .error ("KeyError: " ++ m)

/-- Row count of the frame: the length of its first column (all pandas
columns share one index). -/
noncomputable def rowCount : List (String × Col) → ℕ
  | [] => 0
  | (_, c) :: _ => (colReals c).length

/-- src/uix/index.py `compute_isolation_index` on an explicit config:
`out = df.copy()`, loop 1 adds the z-columns, loop 2 accumulates the weighted
sum, and `out[config.index_col] = idx` appends the index column. -/
noncomputable def compute_isolation_index (df : List (String × Col))
    (config : IsolationIndexConfig) : Except String (List (String × Col)) :=
  match addZCols df config.metrics with
  | .error e => .error e
  | .ok out =>
    match weightedIdx config.metrics out
        (List.replicate (rowCount df) (0 : ℝ)) config.weights with
    | .error e => .error e
    | .ok idx => .ok (out ++ [(config.index_col, (Sum.inr idx : Col))])

/-! ## compute_pca_index (src/cli/07_pca_iso_index.py lines 41-77) -/

/-- The z-columns checked at line 43. -/
def neededZCols : List String := ["pct_age65p_z", "pct_single65p_z", "poverty_rate_z"]

/-- The raw columns checked at lines 47-48. -/
def rawNeededCols : List String := ["pct_age65p", "pct_single65p", "poverty_rate"]

/-- Lines 56-58: write the three freshly computed z-columns into the caller's
frame (in-place assignments on the argument `df`).  The `getD` default is
never reached by `compute_pca_index`, which first checks that the raw columns
are present. -/
noncomputable def writeZCols (df : List (String × Col)) : List (String × Col) :=
  let d1 := setCol df "pct_age65p_z"
    (Sum.inr (colZ ((getCol df "pct_age65p").getD (Sum.inl []))))
  let d2 := setCol d1 "pct_single65p_z"
    (Sum.inr (colZ ((getCol d1 "pct_single65p").getD (Sum.inl []))))
  setCol d2 "poverty_rate_z"
    (Sum.inr (colZ ((getCol d2 "poverty_rate").getD (Sum.inl []))))

/-- Lines 64-73 with the sklearn projection `scores` as parameter: standardize
PC1, then flip its sign when `iso_index` is a column of the frame and the
correlation with it is negative. -/
noncomputable def pcaAligned (df : List (String × Col)) (scores : List ℝ) : List ℝ :=
  match getCol df "iso_index" with
  | some col => iso_index_pca scores (colReals col)
  | none => pcaScoresZ scores

/-- src/cli/07_pca_iso_index.py `compute_pca_index`.  Python mutates the
caller's `df` object when it has to create the z-columns, then rebinds the
local name to `df.copy()` and appends `iso_index_pca` to the copy; the
embedding returns the pair (caller's object after the call, returned frame).
The source tests `not all(col in df.columns for col in needed)` and then
`missing_raw`, raising ValueError when a raw column is also absent. -/
noncomputable def compute_pca_index (df : List (String × Col)) (scores : List ℝ) :
    Except String (List (String × Col) × List (String × Col)) :=
  if neededZCols.all (fun c => (getCol df c).isSome) then
    .ok (df, setCol df "iso_index_pca" (Sum.inr (pcaAligned df scores)))
  else if rawNeededCols.all (fun c => (getCol df c).isSome) then
    let mutated := writeZCols df
    .ok (mutated, setCol mutated "iso_index_pca" (Sum.inr (pcaAligned mutated scores)))
  else .error "Missing needed columns for PCA: expected either z-scored columns or raw columns."

/-! ## Spatial engine: local Moran and the permutation test

esda's `Moran_Local` is an external library, not code of this repository.
The repository calls it as `Moran_Local(y, w)` — no seed argument anywhere in
the code base — so its conditional permutation draws come from the ambient
numpy global RNG, modelled here as a stream of permutation draws with a
current position that each call consumes and advances. -/

/-- Dot product of two rational vectors. -/
def dot (a b : List ℚ) : ℚ := ((a.zip b).map (fun p => p.1 * p.2)).sum

/-- Deviations from the mean. -/
def devs (y : List ℚ) : List ℚ := y.map (fun v => v - mean y)

/-- Modelled from the spec (section 4.5): the local Moran statistic of ward i,
`I_i = (x_i - mean) / m2 * sum_j w_ij (x_j - mean)` with `m2` the variance
of x. -/
def localI (wrow y : List ℚ) (i : ℕ) : ℚ :=
  ((devs y).getD i 0 / popVar y) * dot wrow (devs y)

/-- Reassign the observed values across wards by a permutation: entry i of the
permuted vector is y[perm(i)]. -/
def permuteBy (y : List ℚ) (perm : List ℕ) : List ℚ := perm.map (fun j => y.getD j 0)

/-- Modelled from the spec: esda's conditional permutation test (external
library, not under src/) — "the observed vector's values are randomly
reassigned across wards many times, deriving an empirical null distribution"
yielding a per-ward simulated p-value: the share, with the +1 continuity
correction, of permutations whose local statistic is at least the observed
one. -/
def localPSim (wrow y : List ℚ) (i : ℕ) (perms : List (List ℕ)) : ℚ :=
  ((perms.countP (fun perm => localI wrow (permuteBy y perm) i ≥ localI wrow y i) : ℚ) + 1) /
    ((perms.length : ℚ) + 1)

/-- Modelled from the spec (section 4.5): quadrant assignment comparing the
ward's own deviation and its spatial lag against zero, in the esda encoding
1 = High-High, 2 = Low-High, 3 = Low-Low, 4 = High-Low. -/
def quadrant (wrow y : List ℚ) (i : ℕ) : ℤ :=
  if 0 < (devs y).getD i 0 then (if 0 < dot wrow (devs y) then 1 else 4)
  else (if 0 < dot wrow (devs y) then 2 else 3)

/-- The ambient numpy global RNG as the repository observes it: a stream of
permutation draws and the current position in the stream. -/
structure RngStream where
  draws : ℕ → List ℕ
  pos : ℕ

/-- esda's default permutation count; the repository passes no override. -/
def nPermDefault : ℕ := 999

/-- src/cli/11_spatial_stats_osaka.py `compute_local_moran` followed by
`classify_lisa` (which attaches `lisa_p = lisa.p_sim`, `lisa_q = lisa.q` and
`lisa_cluster = _cluster_label(p, q)` at the default threshold 0.05), with
the ambient RNG stream threaded explicitly because `Moran_Local(y, w)` is
called without any seed: the call consumes `nPermDefault` draws and advances
the stream.  Returns ((simulated p-values, cluster labels), the stream after
the call). -/
def compute_local_moran (y : List ℚ) (w : List (List ℚ)) (st : RngStream) :
    (List ℚ × List String) × RngStream :=
  let perms := (List.range nPermDefault).map (fun t => st.draws (st.pos + t))
  let ps := (List.range y.length).map (fun i => localPSim (w.getD i []) y i perms)
  let qs := (List.range y.length).map (fun i => quadrant (w.getD i []) y i)
  ((ps, (ps.zip qs).map (fun pq => _cluster_label (5/100) pq.1 pq.2)),
   ⟨st.draws, st.pos + nPermDefault⟩)

/-! # Claims -/

/-- C1 (code bug): the Osaka labelling site `_cluster_label` swaps the names
of quadrants 2 and 3 relative to the encoding 1 = High-High, 2 = Low-High,
3 = Low-Low, 4 = High-Low used by the spec, by the Tokyo site
`classify_lisa`, and by the Osaka notebook `cluster_map` — despite the
source comment saying it mirrors the Tokyo scheme.  At the significant
p-value 0.01 with threshold 0.05: quadrant 2 is labelled "Low-Low" in the
Osaka script where every other site says "Low-High", and symmetrically for
quadrant 3. -/
theorem c1_osaka_quadrant_swap :
    _cluster_label (5/100) (1/100) 2 = "Low-Low" ∧
    classify_lisa_label (5/100) (1/100) 2 = "Low-High" ∧
    notebookLabel (1/100) 2 = some "Low-High" ∧
    specLabel (5/100) (1/100) 2 = some "Low-High" ∧
    _cluster_label (5/100) (1/100) 3 = "Low-High" ∧
    classify_lisa_label (5/100) (1/100) 3 = "Low-Low" ∧
    notebookLabel (1/100) 3 = some "Low-Low" ∧
    specLabel (5/100) (1/100) 3 = some "Low-Low" := by
  norm_num [_cluster_label, classify_lisa_label, notebookLabel, cluster_map,
    specLabel, quadrantName]

/-- C4 (counterexample): the designed D-IRI weight set
{0.25, 0.25, 0.20, 0.15} of scripts/build_designed_index.py sums to 0.85,
not 1.0. -/
theorem c4_designed_weights_sum_ne_one :
    (designedWeights.map Prod.snd).sum = 17/20 ∧
    (designedWeights.map Prod.snd).sum ≠ 1 := by
  norm_num [designedWeights]

/-- C4 (amended): the default isolation-index weights and the final-index
weights are non-negative and sum to 1.0; the designed D-IRI weights are
non-negative but sum to 0.85. -/
theorem c4_weight_sets :
    (defaultWeights.all (fun p => 0 ≤ p.2)) = true ∧
    (defaultWeights.map Prod.snd).sum = 1 ∧
    (designedWeights.all (fun p => 0 ≤ p.2)) = true ∧
    (designedWeights.map Prod.snd).sum = 17/20 ∧
    (finalWeights.all (fun p => 0 ≤ p.2)) = true ∧
    (finalWeights.map Prod.snd).sum = 1 := by
  norm_num [defaultWeights, designedWeights, finalWeights, w_demo, w_socio, w_transit]

/-- C5: dropping the 0.20 access weight from {demo 0.40, socio 0.30,
transit 0.10} under the proportional-renormalization policy yields exactly
the constants hard-coded in src/cli/11_build_final_index.py
(0.50, 0.375, 0.125); they sum to 1 and preserve the pairwise ratios
0.40 : 0.30 : 0.10 of the remaining weights. -/
theorem c5_renormalized_final_weights :
    dropAndRenorm preDropWeights "access" =
      [("demo", w_demo), ("socio", w_socio), ("transit", w_transit)] ∧
    w_demo + w_socio + w_transit = 1 ∧
    w_demo * (0.30 : ℚ) = w_socio * 0.40 ∧
    w_socio * (0.10 : ℚ) = w_transit * 0.30 ∧
    w_demo * (0.10 : ℚ) = w_transit * 0.40 := by
  refine ⟨?_, by norm_num [w_demo, w_socio, w_transit], by norm_num [w_demo, w_socio],
    by norm_num [w_socio, w_transit], by norm_num [w_demo, w_transit]⟩
  show List.map _ (List.filter _ preDropWeights) = _
  simp [preDropWeights]
  norm_num [w_demo, w_socio, w_transit]

/-! ## Variance lemmas -/

/-- A sum of squared deviations is non-negative. -/
lemma sumSqDev_nonneg (l : List ℚ) : 0 ≤ sumSqDev l := by
  apply List.sum_nonneg
  intro x hx
  obtain ⟨y, _, rfl⟩ := List.mem_map.mp hx
  positivity

/-- The population variance is non-negative. -/
lemma popVar_nonneg (l : List ℚ) : 0 ≤ popVar l := by
  exact div_nonneg (sumSqDev_nonneg l) (by positivity)

/-- The population standard deviation vanishes exactly on zero variance: this
justifies embedding the source branch `sigma == 0` as `popVar l = 0`. -/
lemma popStd_eq_zero_iff (l : List ℚ) : popStd l = 0 ↔ popVar l = 0 := by
  unfold popStd
  rw [Real.sqrt_eq_zero']
  constructor
  · intro h
    have h2 : (0 : ℝ) ≤ ((popVar l : ℚ) : ℝ) := by
      exact_mod_cast popVar_nonneg l
    have : ((popVar l : ℚ) : ℝ) = 0 := le_antisymm h h2
    exact_mod_cast this
  · intro h
    rw [h]
    norm_num

/-- Concrete evaluation: the population z-scores of [0, 2] (mean 1,
population std 1). -/
lemma _zscore_zero_two : _zscore [0, 2] = [-1, 1] := by
  have hv : popVar [0, 2] = 1 := by norm_num [popVar, sumSqDev, mean]
  have hm : mean [0, 2] = 1 := by norm_num [mean]
  simp [_zscore, hv, popStd, hm]
  norm_num

/-- Concrete evaluation: the transit-alt ingest z-scores of [0, 2]
(sample variance 2, so the denominator is √2, not the population std 1). -/
lemma transitAltZ_zero_two :
    transitAltZ [0, 2] = [-(1 / Real.sqrt 2), 1 / Real.sqrt 2] := by
  have hm : mean [0, 2] = 1 := by norm_num [mean]
  have hs : sumSqDev [0, 2] = 2 := by norm_num [sumSqDev, mean]
  simp [transitAltZ, hm, hs]
  norm_num [neg_div, one_div]

/-- √2 is not 1. -/
lemma sqrt_two_ne_one : Real.sqrt 2 ≠ 1 := by
  have h2 : (1 : ℝ) < Real.sqrt 2 := by
    have : Real.sqrt 1 < Real.sqrt 2 := Real.sqrt_lt_sqrt (by norm_num) (by norm_num)
    simpa using this
  exact ne_of_gt h2

/-- C2 (counterexample): the transit ingest site
(src/cli/09_ingest_transit_alt.py line 44) does not divide by the population
standard deviation: on the series [0, 2] (population std 1, sample std √2)
its output differs from the population z-score used by `_zscore`. -/
theorem c2_transit_ingest_not_population_std : transitAltZ [0, 2] ≠ _zscore [0, 2] := by
  rw [_zscore_zero_two, transitAltZ_zero_two]
  intro h
  have h1 : (1 : ℝ) / Real.sqrt 2 = 1 := by
    have := List.cons.inj h
    simpa using this.2
  have h3 : Real.sqrt 2 ≠ 0 := by positivity
  rw [div_eq_one_iff_eq h3] at h1
  exact sqrt_two_ne_one h1.symm

/-- C2 (amended): the core standardization sites — `_zscore` (src/uix),
`zscore` (07_pca_iso_index), `safe_z` (11_build_final_index), the Osaka
access ingest and the merge-transit fallback — all divide by the population
standard deviation (they compute the same function), but the transit-alt and
the Tokyo access ingest sites divide by the pandas default sample standard
deviation (ddof = 1): on [0, 2] the core sites return [-1, 1] while both
ingest sites divide by √2. -/
theorem c2_standardization_denominators :
    (∀ l, zscore l = _zscore l) ∧
    (∀ l, safe_z l = _zscore l) ∧
    (∀ l, osakaAccessZ l = _zscore l) ∧
    (∀ l, mergeTransitZ l = _zscore l) ∧
    _zscore [0, 2] = [-1, 1] ∧
    transitAltZ [0, 2] = [-(1 / Real.sqrt 2), 1 / Real.sqrt 2] ∧
    tokyoAccessZ [0, 2] = .ok [-(1 / Real.sqrt 2), 1 / Real.sqrt 2] := by
  refine ⟨fun l => rfl, fun l => ?_, fun l => rfl, fun l => rfl,
    _zscore_zero_two, transitAltZ_zero_two, ?_⟩
  · unfold safe_z _zscore
    simp only [mul_zero]
  · have hsv : sampleVar? [0, 2] = some 2 := by
      norm_num [sampleVar?, sumSqDev, mean]
    have hm : mean [0, 2] = 1 := by norm_num [mean]
    simp [tokyoAccessZ, hsv, hm]
    norm_num [neg_div, one_div]

/-- C3 (counterexample): on a constant series the Tokyo access ingest site
raises ValueError instead of returning an all-zero series. -/
theorem c3_tokyo_access_raises_on_constant :
    tokyoAccessZ [5, 5, 5] = .error tokyoAccessErrMsg := by
  have hsv : sampleVar? [5, 5, 5] = some 0 := by
    norm_num [sampleVar?, sumSqDev, mean]
  simp [tokyoAccessZ, hsv]

/-- C3 (amended): on any series of zero or undefined variance the core
standardization sites (`_zscore`, `zscore`, `safe_z`, the Osaka access
ingest, the merge-transit fallback) return an all-zero series, but the Tokyo
access ingest site raises ValueError there, so standardization is not total
at that site. -/
theorem c3_zero_variance_behavior (l : List ℚ) (h : popVar l = 0) :
    _zscore l = l.map (fun _ => (0 : ℝ)) ∧
    zscore l = l.map (fun _ => (0 : ℝ)) ∧
    safe_z l = l.map (fun _ => (0 : ℝ)) ∧
    osakaAccessZ l = l.map (fun _ => (0 : ℝ)) ∧
    mergeTransitZ l = l.map (fun _ => (0 : ℝ)) ∧
    tokyoAccessZ l = .error tokyoAccessErrMsg := by
  refine ⟨by unfold _zscore; rw [if_pos h], by unfold zscore; rw [if_pos h],
    by unfold safe_z; rw [if_pos h]; simp only [mul_zero],
    by unfold osakaAccessZ; rw [if_pos h],
    by unfold mergeTransitZ; rw [if_pos h], ?_⟩
  by_cases hn : l.length ≤ 1
  · simp [tokyoAccessZ, sampleVar?, hn]
  · have hlen : ((l.length : ℚ)) ≠ 0 := by
      have : l.length ≠ 0 := by omega
      exact_mod_cast this
    have hs : sumSqDev l = 0 := by
      rcases div_eq_zero_iff.mp h with h1 | h1
      · exact h1
      · exact absurd h1 hlen
    simp [tokyoAccessZ, sampleVar?, hn, hs]

/-- C3 (witness): the constant series [0, 0] has zero variance; the core
sites return zeros on it and the Tokyo access ingest raises. -/
theorem c3_zero_variance_behavior_witness :
    popVar [0, 0] = 0 ∧
    (_zscore [0, 0] = [0, 0].map (fun _ => (0 : ℝ)) ∧
     zscore [0, 0] = [0, 0].map (fun _ => (0 : ℝ)) ∧
     safe_z [0, 0] = [0, 0].map (fun _ => (0 : ℝ)) ∧
     osakaAccessZ [0, 0] = [0, 0].map (fun _ => (0 : ℝ)) ∧
     mergeTransitZ [0, 0] = [0, 0].map (fun _ => (0 : ℝ)) ∧
     tokyoAccessZ [0, 0] = .error tokyoAccessErrMsg) :=
  ⟨by simp [popVar, sumSqDev, mean],
   c3_zero_variance_behavior [0, 0] (by simp [popVar, sumSqDev, mean])⟩

/-! ## Real-vector lemmas for the PCA index -/

lemma sum_map_sub_div (l : List ℝ) (μ σ : ℝ) :
    (l.map (fun x => (x - μ) / σ)).sum = (l.sum - l.length * μ) / σ := by
  induction l with
  | nil => simp
  | cons x xs ih =>
    simp only [List.map_cons, List.sum_cons, ih, List.length_cons]
    push_cast
    ring

lemma sum_map_sq_div (l : List ℝ) (μ σ : ℝ) :
    (l.map (fun x => ((x - μ) / σ) ^ 2)).sum = (l.map (fun x => (x - μ) ^ 2)).sum / σ ^ 2 := by
  induction l with
  | nil => simp
  | cons x xs ih =>
    simp only [List.map_cons, List.sum_cons, ih]
    ring

lemma sum_map_neg_comp {α : Type} (l : List α) (f : α → ℝ) :
    (l.map (fun a => -(f a))).sum = -((l.map f).sum) := by
  induction l with
  | nil => simp
  | cons a as ih =>
    simp only [List.map_cons, List.sum_cons, ih]
    ring

/-- Centering and scaling a vector gives mean 0 (whatever the scale). -/
lemma meanR_center_scale (l : List ℝ) (σ : ℝ) :
    meanR (l.map (fun x => (x - meanR l) / σ)) = 0 := by
  rcases eq_or_ne l.length 0 with h | h
  · have : l = [] := List.length_eq_zero.mp h
    subst this
    simp [meanR]
  · unfold meanR
    rw [List.length_map, sum_map_sub_div]
    have hn : (l.length : ℝ) ≠ 0 := Nat.cast_ne_zero.mpr h
    have hm : (l.length : ℝ) * (l.sum / l.length) = l.sum := by
      field_simp
    rw [hm, sub_self, zero_div, zero_div]

lemma popVarR_center_scale (l : List ℝ) (σ : ℝ) :
    popVarR (l.map (fun x => (x - meanR l) / σ)) = popVarR l / σ ^ 2 := by
  unfold popVarR
  rw [meanR_center_scale, List.length_map, List.map_map]
  have hc : ((fun x => (x - 0) ^ 2) ∘ fun x => (x - meanR l) / σ) =
      (fun x => ((x - meanR l) / σ) ^ 2) := by
    funext x
    simp
  rw [hc, sum_map_sq_div]
  ring

lemma popVarR_nonneg (l : List ℝ) : 0 ≤ popVarR l := by
  apply div_nonneg
  · apply List.sum_nonneg
    intro x hx
    obtain ⟨y, _, rfl⟩ := List.mem_map.mp hx
    positivity
  · positivity

lemma sq_popStdR (l : List ℝ) : popStdR l ^ 2 = popVarR l :=
  Real.sq_sqrt (popVarR_nonneg l)

lemma meanR_pcaScoresZ (s : List ℝ) : meanR (pcaScoresZ s) = 0 :=
  meanR_center_scale s (popStdR s)

lemma popVarR_pcaScoresZ (s : List ℝ) (h : popVarR s ≠ 0) :
    popVarR (pcaScoresZ s) = 1 := by
  unfold pcaScoresZ
  rw [popVarR_center_scale, sq_popStdR]
  exact div_self h

lemma popStdR_pcaScoresZ (s : List ℝ) (h : popVarR s ≠ 0) :
    popStdR (pcaScoresZ s) = 1 := by
  unfold popStdR
  rw [popVarR_pcaScoresZ s h, Real.sqrt_one]

lemma sum_map_neg (l : List ℝ) : (l.map (fun x => -x)).sum = -l.sum := by
  induction l with
  | nil => simp
  | cons x xs ih =>
    simp only [List.map_cons, List.sum_cons, ih]
    ring

lemma meanR_map_neg (l : List ℝ) : meanR (l.map (fun x => -x)) = -meanR l := by
  unfold meanR
  rw [List.length_map, sum_map_neg, neg_div]

lemma popVarR_map_neg (l : List ℝ) : popVarR (l.map (fun x => -x)) = popVarR l := by
  unfold popVarR
  rw [meanR_map_neg, List.length_map, List.map_map]
  have hc : ((fun x => (x - -meanR l) ^ 2) ∘ fun x => -x) =
      (fun x => (x - meanR l) ^ 2) := by
    funext x
    simp only [Function.comp_apply]
    ring
  rw [hc]

lemma popStdR_map_neg (l : List ℝ) : popStdR (l.map (fun x => -x)) = popStdR l := by
  unfold popStdR
  rw [popVarR_map_neg]

lemma covR_map_neg_left (x y : List ℝ) :
    covR (x.map (fun a => -a)) y = -covR x y := by
  unfold covR
  rw [meanR_map_neg, List.length_map, List.zip_map_left, List.map_map]
  have hc : ((fun p : ℝ × ℝ => (p.1 - -meanR x) * (p.2 - meanR y)) ∘
      Prod.map (fun a => -a) id) =
      (fun p : ℝ × ℝ => -((p.1 - meanR x) * (p.2 - meanR y))) := by
    funext p
    simp only [Function.comp_apply, Prod.map, id]
    ring
  rw [hc, sum_map_neg_comp, neg_div]

lemma pearson_map_neg_left (x y : List ℝ) :
    pearson (x.map (fun a => -a)) y = -pearson x y := by
  unfold pearson
  rw [covR_map_neg_left, popStdR_map_neg, neg_div]

/-- C6: for any projected-scores vector with nonzero variance (the first
principal component being well defined) and any composite index column of
nonzero variance over the same wards, the `iso_index_pca` column built by
`compute_pca_index` has mean 0, population standard deviation 1, and
non-negative Pearson correlation with the composite index it was aligned
against. -/
theorem c6_pca_index_aligned (scores iso : List ℝ)
    (hlen : scores.length = iso.length)
    (hs : popVarR scores ≠ 0) (hi : popVarR iso ≠ 0) :
    meanR (iso_index_pca scores iso) = 0 ∧
    popStdR (iso_index_pca scores iso) = 1 ∧
    0 ≤ pearson (iso_index_pca scores iso) iso := by
  unfold iso_index_pca
  split_ifs with h
  · refine ⟨?_, ?_, ?_⟩
    · rw [meanR_map_neg, meanR_pcaScoresZ, neg_zero]
    · rw [popStdR_map_neg, popStdR_pcaScoresZ scores hs]
    · rw [pearson_map_neg_left]
      linarith
  · exact ⟨meanR_pcaScoresZ scores, popStdR_pcaScoresZ scores hs, not_lt.mp h⟩

/-- C6 (witness): concrete instance at scores [0, 2] against index [0, 1]. -/
theorem c6_pca_index_aligned_witness :
    ([0, 2] : List ℝ).length = ([0, 1] : List ℝ).length ∧
    popVarR [0, 2] ≠ 0 ∧ popVarR [0, 1] ≠ 0 ∧
    (meanR (iso_index_pca [0, 2] [0, 1]) = 0 ∧
     popStdR (iso_index_pca [0, 2] [0, 1]) = 1 ∧
     0 ≤ pearson (iso_index_pca [0, 2] [0, 1]) [0, 1]) :=
  ⟨rfl, by norm_num [popVarR, meanR], by norm_num [popVarR, meanR],
   c6_pca_index_aligned [0, 2] [0, 1] rfl
     (by norm_num [popVarR, meanR]) (by norm_num [popVarR, meanR])⟩

/-! ## Lemmas on the DataFrame model -/

lemma getCol_append_of_isSome (l1 l2 : List (String × Col)) (n : String)
    (h : (getCol l1 n).isSome) : getCol (l1 ++ l2) n = getCol l1 n := by
  induction l1 with
  | nil => simp [getCol] at h
  | cons p rest ih =>
    obtain ⟨k, c⟩ := p
    by_cases hk : k = n
    · simp [getCol, hk]
    · have h2 : (getCol rest n).isSome := by
        simpa [getCol, hk] using h
      simp [getCol, hk, ih h2]

lemma getCol_append_of_none (l1 l2 : List (String × Col)) (n : String)
    (h : getCol l1 n = none) : getCol (l1 ++ l2) n = getCol l2 n := by
  induction l1 with
  | nil => simp [getCol]
  | cons p rest ih =>
    obtain ⟨k, c⟩ := p
    by_cases hk : k = n
    · simp [getCol, hk] at h
    · have h2 : getCol rest n = none := by
        simpa [getCol, hk] using h
      simp [getCol, hk, ih h2]

/-- Loop 1 succeeds when every metric is a column of the frame, and appends
exactly the columns `<metric>_z` in order. -/
lemma addZCols_ok (ms : List String) (out : List (String × Col))
    (h : ∀ m ∈ ms, (getCol out m).isSome) :
    ∃ out2, addZCols out ms = .ok out2 ∧
      out2.map Prod.fst = out.map Prod.fst ++ ms.map (fun m => m ++ "_z") := by
  induction ms generalizing out with
  | nil => exact ⟨out, rfl, by simp⟩
  | cons m rest ih =>
    have hm := h m (by simp)
    obtain ⟨col, hcol⟩ := Option.isSome_iff_exists.mp hm
    have h2 : ∀ m2 ∈ rest, (getCol (out ++ [(m ++ "_z", (Sum.inr (colZ col) : Col))]) m2).isSome := by
      intro m2 hm2
      have := h m2 (by simp [hm2])
      rw [getCol_append_of_isSome _ _ _ this]
      exact this
    obtain ⟨out2, heq, hnames⟩ := ih _ h2
    refine ⟨out2, ?_, ?_⟩
    · simp only [addZCols, hcol]
      exact heq
    · rw [hnames]
      simp

/-- Loop 1 raises KeyError when some metric is absent from the frame and is
not captured by a z-column appended for an earlier metric. -/
lemma addZCols_error (ms : List String) (out : List (String × Col)) (m : String)
    (h1 : m ∈ ms) (h2 : getCol out m = none)
    (h3 : ∀ m2 ∈ ms, ¬ (m = m2 ++ "_z")) :
    ∃ e, addZCols out ms = .error e := by
  induction ms generalizing out with
  | nil => cases h1
  | cons m0 rest ih =>
    rcases hget : getCol out m0 with _ | col
    · exact ⟨"KeyError: Metric " ++ m0 ++ " not found in DataFrame columns.",
        by simp only [addZCols, hget]⟩
    · have hne : m ≠ m0 := by
        intro hmm
        rw [hmm] at h2
        rw [h2] at hget
        cases hget
      have hmem : m ∈ rest := by
        rcases List.mem_cons.mp h1 with h | h
        · exact absurd h hne
        · exact h
      have h2b : getCol (out ++ [(m0 ++ "_z", (Sum.inr (colZ col) : Col))]) m = none := by
        rw [getCol_append_of_none _ _ _ h2]
        have : ¬ (m0 ++ "_z" = m) := fun hmm => h3 m0 (by simp) hmm.symm
        simp [getCol, this]
      obtain ⟨e, he⟩ := ih _ hmem h2b (fun m2 hm2 => h3 m2 (by simp [hm2]))
      exact ⟨e, by simp only [addZCols, hget]; exact he⟩

/-- Loop 2 succeeds when every weight key is in the configured metric list. -/
lemma weightedIdx_ok (metrics : List String) (out : List (String × Col))
    (ws : List (String × ℚ)) (idx : List ℝ)
    (h : ∀ p ∈ ws, p.1 ∈ metrics) :
    ∃ v, weightedIdx metrics out idx ws = .ok v := by
  induction ws generalizing idx with
  | nil => exact ⟨idx, rfl⟩
  | cons q rest ih =>
    obtain ⟨m, w⟩ := q
    have hq : m ∈ metrics := h (m, w) (by simp)
    simp only [weightedIdx, if_pos hq]
    exact ih _ (fun p hp => h p (by simp [hp]))

/-- Loop 2 raises KeyError (`z_cols[metric]`) when some weight names a metric
outside the configured metric list. -/
lemma weightedIdx_error (metrics : List String) (out : List (String × Col))
    (ws : List (String × ℚ)) (idx : List ℝ) (p : String × ℚ)
    (h1 : p ∈ ws) (h2 : p.1 ∉ metrics) :
    ∃ e, weightedIdx metrics out idx ws = .error e := by
  induction ws generalizing idx with
  | nil => cases h1
  | cons q rest ih =>
    obtain ⟨m, w⟩ := q
    by_cases hq : m ∈ metrics
    · have hmem : p ∈ rest := by
        rcases List.mem_cons.mp h1 with h | h
        · subst h
          exact absurd hq h2
        · exact h
      simp only [weightedIdx, if_pos hq]
      exact ih _ hmem
    · exact ⟨"KeyError: " ++ m, by simp only [weightedIdx, if_neg hq]⟩

/-- C7 (amended): `compute_isolation_index` (i) returns normally and adds one
z-column per configured metric plus the index column when every configured
metric is a column of the input and every weight key is a configured metric;
(ii) raises KeyError when a configured metric is absent from the input (and
no earlier metric's z-column shadows its name); (iii) raises KeyError when a
weight names a metric outside the configured metric list — even if that name
is a column of the input table. -/
theorem c7_compute_isolation_index (df : List (String × Col)) (cfg : IsolationIndexConfig) :
    ((∀ m ∈ cfg.metrics, (getCol df m).isSome) →
     (∀ p ∈ cfg.weights, p.1 ∈ cfg.metrics) →
     ∃ out, compute_isolation_index df cfg = .ok out ∧
       out.map Prod.fst =
         df.map Prod.fst ++ cfg.metrics.map (fun m => m ++ "_z") ++ [cfg.index_col]) ∧
    (∀ m, m ∈ cfg.metrics → getCol df m = none →
     (∀ m2 ∈ cfg.metrics, ¬ (m = m2 ++ "_z")) →
     ∃ e, compute_isolation_index df cfg = .error e) ∧
    (∀ p, p ∈ cfg.weights → p.1 ∉ cfg.metrics →
     (∀ m ∈ cfg.metrics, (getCol df m).isSome) →
     ∃ e, compute_isolation_index df cfg = .error e) := by
  refine ⟨?_, ?_, ?_⟩
  · intro h1 h2
    obtain ⟨out1, hok, hnames⟩ := addZCols_ok cfg.metrics df h1
    obtain ⟨v, hv⟩ := weightedIdx_ok cfg.metrics out1 cfg.weights
      (List.replicate (rowCount df) 0) h2
    refine ⟨out1 ++ [(cfg.index_col, (Sum.inr v : Col))], ?_, ?_⟩
    · simp only [compute_isolation_index, hok, hv]
    · simp [hnames]
  · intro m hm hnone hnoz
    obtain ⟨e, he⟩ := addZCols_error cfg.metrics df m hm hnone hnoz
    exact ⟨e, by simp only [compute_isolation_index, he]⟩
  · intro p hp hpn h1
    obtain ⟨out1, hok, _⟩ := addZCols_ok cfg.metrics df h1
    obtain ⟨e, he⟩ := weightedIdx_error cfg.metrics out1 cfg.weights
      (List.replicate (rowCount df) 0) p hp hpn
    exact ⟨e, by simp only [compute_isolation_index, hok, he]⟩

/-- A one-metric config whose weight set also names metric "b". -/
def cfgWeightsBeyondMetrics : IsolationIndexConfig :=
  { metrics := ["a"], weights := [("a", 1/2), ("b", 1/2)], index_col := "iso_index" }

/-- A two-column frame holding metrics "a" and "b". -/
def dfAB : List (String × Col) := [("a", Sum.inl [1, 2]), ("b", Sum.inl [3, 4])]

/-- C7 (counterexample): with metric list ["a"] and weights on "a" and "b"
over a table containing columns "a" and "b", every metric named in the
metric list or the weight set is present in the input table, yet
`compute_isolation_index` raises (the weighted-sum loop's `z_cols[metric]`
dict lookup raises KeyError for "b"), contradicting the claim that it
returns normally whenever all named metrics are present. -/
theorem c7_counterexample_present_weight_raises :
    ((cfgWeightsBeyondMetrics.metrics ++ cfgWeightsBeyondMetrics.weights.map Prod.fst).all
      (fun m => (getCol dfAB m).isSome)) = true ∧
    (compute_isolation_index dfAB cfgWeightsBeyondMetrics).isOk = false := by
  constructor
  · rfl
  · rfl

/-- The same config with weights only on "a". -/
def cfgJustA : IsolationIndexConfig :=
  { metrics := ["a"], weights := [("a", 1/2)], index_col := "iso_index" }

/-- A frame without column "a". -/
def dfOnlyB : List (String × Col) := [("b", Sum.inl [3, 4])]

/-- C7 (witness): the three branches of `c7_compute_isolation_index` at
concrete frames and configs. -/
theorem c7_compute_isolation_index_witness :
    (compute_isolation_index dfAB cfgJustA).isOk = true ∧
    (compute_isolation_index dfOnlyB cfgJustA).isOk = false ∧
    (compute_isolation_index dfAB cfgWeightsBeyondMetrics).isOk = false := by
  refine ⟨?_, ?_, ?_⟩
  · obtain ⟨out, h1, -⟩ := (c7_compute_isolation_index dfAB cfgJustA).1
      (by decide) (by simp [cfgJustA])
    rw [h1]
    rfl
  · obtain ⟨e, h1⟩ := (c7_compute_isolation_index dfOnlyB cfgJustA).2.1 "a"
      (by decide) (by decide) (by decide)
    rw [h1]
    rfl
  · obtain ⟨e, h1⟩ := (c7_compute_isolation_index dfAB cfgWeightsBeyondMetrics).2.2
      ("b", 1/2) (by simp [cfgWeightsBeyondMetrics]) (by decide) (by decide)
    rw [h1]
    rfl

/-- C10: when any of the three z-columns is absent but the raw columns are
present, `compute_pca_index` writes the freshly computed z-columns into the
caller's DataFrame object (the first component of the result — the caller's
view of the argument — is `writeZCols df`) before adding `iso_index_pca` to
the copy; when all three z-columns are present the caller's object is
returned unchanged. -/
theorem c10_pca_frame_effect (df : List (String × Col)) (scores : List ℝ) :
    ((neededZCols.all (fun c => (getCol df c).isSome)) = false →
     (rawNeededCols.all (fun c => (getCol df c).isSome)) = true →
     compute_pca_index df scores =
       .ok (writeZCols df,
            setCol (writeZCols df) "iso_index_pca"
              (Sum.inr (pcaAligned (writeZCols df) scores)))) ∧
    ((neededZCols.all (fun c => (getCol df c).isSome)) = true →
     compute_pca_index df scores =
       .ok (df, setCol df "iso_index_pca" (Sum.inr (pcaAligned df scores)))) := by
  constructor
  · intro h1 h2
    simp [compute_pca_index, h1, h2]
  · intro h1
    simp [compute_pca_index, h1]

/-- A frame holding only the three raw metric columns. -/
def dfRawOnly : List (String × Col) :=
  [("pct_age65p", Sum.inl [1, 2]), ("pct_single65p", Sum.inl [2, 3]),
   ("poverty_rate", Sum.inl [3, 5])]

/-- A frame holding only the three z-columns. -/
def dfZOnly : List (String × Col) :=
  [("pct_age65p_z", Sum.inr [1, -1]), ("pct_single65p_z", Sum.inr [1, -1]),
   ("poverty_rate_z", Sum.inr [1, -1])]

/-- C10 (witness): on a raw-only frame the caller's object comes back with
the z-columns written into it; on a frame that already has the z-columns it
comes back unchanged. -/
theorem c10_pca_frame_effect_witness :
    compute_pca_index dfRawOnly [1, 2] =
      .ok (writeZCols dfRawOnly,
           setCol (writeZCols dfRawOnly) "iso_index_pca"
             (Sum.inr (pcaAligned (writeZCols dfRawOnly) [1, 2]))) ∧
    compute_pca_index dfZOnly [1, 2] =
      .ok (dfZOnly, setCol dfZOnly "iso_index_pca"
             (Sum.inr (pcaAligned dfZOnly [1, 2]))) :=
  ⟨(c10_pca_frame_effect dfRawOnly [1, 2]).1 (by rfl) (by rfl),
   (c10_pca_frame_effect dfZOnly [1, 2]).2 (by rfl)⟩

/-! ## C9: seeds and the permutation test -/

lemma countP_replicate {α : Type} (n : ℕ) (a : α) (p : α → Bool) :
    (List.replicate n a).countP p = if p a then n else 0 := by
  induction n with
  | zero => simp
  | succ k ih =>
    simp only [List.replicate_succ, List.countP_cons, ih]
    split <;> simp_all

/-- A three-ward index vector. -/
def lisaY : List ℚ := [0, 0, 1]

/-- Row-standardized queen weights of a three-ward path 0 – 1 – 2. -/
def lisaW : List (List ℚ) := [[0, 1, 0], [1/2, 0, 1/2], [0, 1, 0]]

/-- An ambient RNG stream whose first `nPermDefault` draws are the identity
reassignment and whose later draws reverse the wards. -/
def streamA : RngStream := ⟨fun t => if t < nPermDefault then [0, 1, 2] else [2, 1, 0], 0⟩

lemma localI_lisaY_observed : localI [0, 1, 0] lisaY 0 = 1/2 := by
  norm_num [localI, devs, dot, popVar, sumSqDev, mean, lisaY]

lemma permuteBy_lisaY_id : permuteBy lisaY [0, 1, 2] = [0, 0, 1] := by
  norm_num [permuteBy, lisaY]

lemma permuteBy_lisaY_rev : permuteBy lisaY [2, 1, 0] = [1, 0, 0] := by
  norm_num [permuteBy, lisaY]

lemma localI_lisaY_rev : localI [0, 1, 0] (permuteBy lisaY [2, 1, 0]) 0 = -1 := by
  rw [permuteBy_lisaY_rev]
  norm_num [localI, devs, dot, popVar, sumSqDev, mean]

lemma localPSim_id_draws :
    localPSim [0, 1, 0] lisaY 0 (List.replicate nPermDefault [0, 1, 2]) = 1 := by
  unfold localPSim
  rw [countP_replicate]
  have hb : (decide (localI [0, 1, 0] (permuteBy lisaY [0, 1, 2]) 0 ≥
      localI [0, 1, 0] lisaY 0)) = true := by
    rw [permuteBy_lisaY_id]
    show decide (localI [0, 1, 0] lisaY 0 ≥ localI [0, 1, 0] lisaY 0) = true
    simp
  rw [hb]
  norm_num [nPermDefault]

lemma localPSim_rev_draws :
    localPSim [0, 1, 0] lisaY 0 (List.replicate nPermDefault [2, 1, 0]) = 1/1000 := by
  unfold localPSim
  rw [countP_replicate]
  have hb : (decide (localI [0, 1, 0] (permuteBy lisaY [2, 1, 0]) 0 ≥
      localI [0, 1, 0] lisaY 0)) = false := by
    rw [localI_lisaY_rev, localI_lisaY_observed]
    norm_num
  rw [hb]
  norm_num [nPermDefault]

lemma streamA_run1_perms :
    (List.range nPermDefault).map (fun t => streamA.draws (streamA.pos + t)) =
      List.replicate nPermDefault [0, 1, 2] := by
  have h : ∀ t ∈ List.range nPermDefault, streamA.draws (streamA.pos + t) = [0, 1, 2] := by
    intro t ht
    have : t < nPermDefault := List.mem_range.mp ht
    simp [streamA, this]
  rw [List.map_congr_left h]
  simp

lemma streamA_run2_perms :
    (List.range nPermDefault).map
      (fun t => (compute_local_moran lisaY lisaW streamA).2.draws
        ((compute_local_moran lisaY lisaW streamA).2.pos + t)) =
      List.replicate nPermDefault [2, 1, 0] := by
  have hst : (compute_local_moran lisaY lisaW streamA).2 = ⟨streamA.draws, nPermDefault⟩ := by
    simp [compute_local_moran, streamA]
  rw [hst]
  have h : ∀ t ∈ List.range nPermDefault,
      streamA.draws (nPermDefault + t) = [2, 1, 0] := by
    intro t ht
    have hn : ¬ (nPermDefault + t < nPermDefault) := by omega
    simp [streamA, hn]
  rw [List.map_congr_left h]
  simp

lemma compute_local_moran_first_p (st : RngStream) :
    (compute_local_moran lisaY lisaW st).1.1.getD 0 0 =
      localPSim [0, 1, 0] lisaY 0
        ((List.range nPermDefault).map (fun t => st.draws (st.pos + t))) := by
  have hr : List.range lisaY.length = [0, 1, 2] := rfl
  simp only [compute_local_moran, hr, List.map_cons, List.getD_cons_zero]
  rfl

/-- C9 (counterexample): the repository exposes no seed — `Moran_Local(y, w)`
is called with no seed argument and no function in the code base accepts
one — so the permutation draws come from the ambient global RNG, which
re-running does not reset: two back-to-back runs of `compute_local_moran` on
the same input produce different simulated p-values (ward 0 gets p = 1 then
p = 1/1000 under the stream `streamA`), refuting "two runs on the same input
produce identical simulated p-values and identical cluster labels" as the
code stands. -/
theorem c9_rerun_without_seed_differs :
    (compute_local_moran lisaY lisaW
       ((compute_local_moran lisaY lisaW streamA).2)).1 ≠
    (compute_local_moran lisaY lisaW streamA).1 := by
  intro h
  have h0 : (compute_local_moran lisaY lisaW
      ((compute_local_moran lisaY lisaW streamA).2)).1.1.getD 0 0 =
      (compute_local_moran lisaY lisaW streamA).1.1.getD 0 0 := by
    rw [h]
  rw [compute_local_moran_first_p, compute_local_moran_first_p,
    streamA_run1_perms, streamA_run2_perms, localPSim_id_draws,
    localPSim_rev_draws] at h0
  norm_num at h0

/-- C9 (amended): the repository's permutation tests take no seed parameter;
the simulated p-values and cluster labels are a deterministic function of the
input together with the window of the ambient RNG stream the call consumes,
so two runs reproduce identical p-values and labels exactly when their
ambient streams supply the same draws (as after an external global reseed). -/
theorem c9_fixed_stream_reproduces (y : List ℚ) (w : List (List ℚ))
    (s₁ s₂ : RngStream)
    (h : ∀ t, t < nPermDefault → s₁.draws (s₁.pos + t) = s₂.draws (s₂.pos + t)) :
    (compute_local_moran y w s₁).1 = (compute_local_moran y w s₂).1 := by
  have hp : (List.range nPermDefault).map (fun t => s₁.draws (s₁.pos + t)) =
      (List.range nPermDefault).map (fun t => s₂.draws (s₂.pos + t)) :=
    List.map_congr_left (fun t ht => h t (List.mem_range.mp ht))
  simp only [compute_local_moran]
  rw [hp]

/-- A stream that always draws the swap, read from position 7. -/
def streamConst : RngStream := ⟨fun _ => [1, 0], 7⟩

/-- A stream agreeing with `streamConst` on every draw below 1000, read from
position 0. -/
def streamTail : RngStream := ⟨fun t => if 1000 ≤ t then [9] else [1, 0], 0⟩

/-- C9 (witness): two streams with the same consumed window reproduce
identical p-values and labels on a two-ward input. -/
theorem c9_fixed_stream_reproduces_witness :
    (compute_local_moran [0, 1] [[0, 1], [1, 0]] streamConst).1 =
    (compute_local_moran [0, 1] [[0, 1], [1, 0]] streamTail).1 :=
  c9_fixed_stream_reproduces [0, 1] [[0, 1], [1, 0]] streamConst streamTail
    (by
      intro t ht
      have hn : ¬ (1000 ≤ t) := by
        simp [nPermDefault] at ht
        omega
      simp [streamConst, streamTail, hn])

/-! ## C8: the range normalizer -/

lemma foldl_min_le (xs : List ℚ) (a : ℚ) :
    xs.foldl min a ≤ a ∧ ∀ x ∈ xs, xs.foldl min a ≤ x := by
  induction xs generalizing a with
  | nil => exact ⟨le_refl a, by simp⟩
  | cons x xs ih =>
    obtain ⟨h1, h2⟩ := ih (min a x)
    refine ⟨le_trans h1 (min_le_left a x), ?_⟩
    intro y hy
    rcases List.mem_cons.mp hy with h | h
    · subst h
      exact le_trans h1 (min_le_right a y)
    · exact h2 y h

lemma le_foldl_max (xs : List ℚ) (a : ℚ) :
    a ≤ xs.foldl max a ∧ ∀ x ∈ xs, x ≤ xs.foldl max a := by
  induction xs generalizing a with
  | nil => exact ⟨le_refl a, by simp⟩
  | cons x xs ih =>
    obtain ⟨h1, h2⟩ := ih (max a x)
    refine ⟨le_trans (le_max_left a x) h1, ?_⟩
    intro y hy
    rcases List.mem_cons.mp hy with h | h
    · subst h
      exact le_trans (le_max_right a y) h1
    · exact h2 y h

/-- `Series.min` bounds every element from below. -/
lemma listMin_le (l : List ℚ) : ∀ x ∈ l, listMin l ≤ x := by
  cases l with
  | nil => simp
  | cons a xs =>
    intro x hx
    rcases List.mem_cons.mp hx with h | h
    · subst h
      exact (foldl_min_le xs x).1
    · exact (foldl_min_le xs a).2 x h

/-- `Series.max` bounds every element from above. -/
lemma le_listMax (l : List ℚ) : ∀ x ∈ l, x ≤ listMax l := by
  cases l with
  | nil => simp
  | cons a xs =>
    intro x hx
    rcases List.mem_cons.mp hx with h | h
    · subst h
      exact (le_foldl_max xs x).1
    · exact (le_foldl_max xs a).2 x h

/-- C8: `minmax_0_100` stays within [0, 100]; when the column is not
constant the minimum maps to 0 and the maximum to 100; when it is constant
(including a single-row input) every row maps to 50 instead of raising a
division error. -/
theorem c8_minmax_range (l : List ℚ) :
    (∀ y ∈ minmax_0_100 l, 0 ≤ y ∧ y ≤ 100) ∧
    (listMin l ≠ listMax l →
      minmaxVal l (listMin l) = 0 ∧ minmaxVal l (listMax l) = 100) ∧
    (listMin l = listMax l → minmax_0_100 l = l.map (fun _ => 50)) := by
  refine ⟨?_, ?_, ?_⟩
  · intro y hy
    obtain ⟨x, hx, rfl⟩ := List.mem_map.mp hy
    unfold minmaxVal
    split_ifs with hd
    · norm_num
    · have hxmin := listMin_le l x hx
      have hxmax := le_listMax l x hx
      have hdpos : 0 < listMax l - listMin l := by
        rcases lt_or_eq_of_le (by linarith : listMin l ≤ listMax l) with h | h
        · linarith
        · exact absurd (by linarith : listMax l - listMin l = 0) hd
      constructor
      · exact div_nonneg (by nlinarith) (le_of_lt hdpos)
      · rw [div_le_iff₀ hdpos]
        nlinarith
  · intro hne
    have hd : listMax l - listMin l ≠ 0 := fun h => hne (by linarith)
    constructor
    · simp [minmaxVal, hd]
    · rw [minmaxVal, if_neg hd, mul_div_assoc, div_self hd, mul_one]
  · intro heq
    have hd : listMax l - listMin l = 0 := by rw [heq]; ring
    apply List.map_congr_left
    intro x _
    simp [minmaxVal, hd]

/-- C8 (witness): on [1, 3] the minimum maps to 0 and the maximum to 100; on
the constant column [2, 2] every row maps to 50. -/
theorem c8_minmax_range_witness :
    (minmaxVal [1, 3] (listMin [1, 3]) = 0 ∧ minmaxVal [1, 3] (listMax [1, 3]) = 100) ∧
    minmax_0_100 [2, 2] = [2, 2].map (fun _ => 50) :=
  ⟨(c8_minmax_range [1, 3]).2.1 (by norm_num [listMin, listMax, min_def, max_def]),
   (c8_minmax_range [2, 2]).2.2 (by norm_num [listMin, listMax, min_def, max_def])⟩

end UrbanIso
